import Mathlib

/-!
Verification of the wgpu inverse-sqrt demo: a shallow embedding of the host
dispatch pipeline (src/src/main.rs) and of the SPIR-V compute kernel
(src/inverse_sqrt/src/lib.rs), with theorems settling the specification's
claims about them.
-/

namespace InvSqrt

/-! ## Byte-level serialization (host side)

`compute` serializes its `&[f32]` input with `flat_map(f32::to_ne_bytes)`;
the readback in `run_compute_shader` decodes with
`chunks_exact(4).map(f32::from_ne_bytes)`.  An `f32` is carried here by its
32-bit pattern, a natural number below `2^32`; the target is little-endian,
so `to_ne_bytes` emits the four bytes least-significant first. -/

/-- The four native-endian (little-endian) bytes of a 32-bit word, as
`f32::to_ne_bytes` produces them. -/
def toNeBytes (w : Nat) : List Nat :=
  [w % 256, w / 256 % 256, w / 256 ^ 2 % 256, w / 256 ^ 3 % 256]

/-- Rebuild a 32-bit word from its four native-endian bytes, as
`f32::from_ne_bytes` does on a 4-byte chunk. -/
def fromNeBytes (b : List Nat) : Nat :=
  match b with
  | [b0, b1, b2, b3] => b0 + 256 * b1 + 256 ^ 2 * b2 + 256 ^ 3 * b3
  | _ => 0

/-- Rust `chunks_exact(n)`: the consecutive length-`n` chunks of a list, the
final fragment of length `< n` dropped. -/
def chunksExact (n : Nat) (l : List α) : List (List α) :=
  if _h : 0 < n ∧ n ≤ l.length then
    l.take n :: chunksExact n (l.drop n)
  else []
termination_by l.length
decreasing_by
  simp only [List.length_drop]
  omega

/-- Host serialization in `compute` (src/src/main.rs lines 129-133):
concatenate the native-endian 4-byte encodings of the elements in order. -/
def encodeWords (xs : List Nat) : List Nat :=
  (xs.map toNeBytes).flatten

/-- Host readback decoding in `run_compute_shader` (src/src/main.rs lines
120-124): cut the mapped bytes into exact 4-byte chunks and reinterpret each
as an `f32` (here: its 32-bit pattern). -/
def decodeWords (bytes : List Nat) : List Nat :=
  (chunksExact 4 bytes).map fromNeBytes

theorem toNeBytes_length (w : Nat) : (toNeBytes w).length = 4 := rfl

theorem fromNeBytes_toNeBytes (w : Nat) (hw : w < 2 ^ 32) :
    fromNeBytes (toNeBytes w) = w := by
  simp only [toNeBytes, fromNeBytes]
  omega

theorem chunksExact_nil (n : Nat) : chunksExact n ([] : List α) = [] := by
  rw [chunksExact]
  simp
  omega

theorem chunksExact_append (n : Nat) (hn : 0 < n) (c l : List α)
    (hc : c.length = n) : chunksExact n (c ++ l) = c :: chunksExact n l := by
  rw [chunksExact]
  have hle : n ≤ (c ++ l).length := by
    simp [List.length_append, hc]
  rw [dif_pos ⟨hn, hle⟩]
  congr 1
  · rw [List.take_append_of_le_length (by omega), ← hc, List.take_length]
  · rw [List.drop_append_of_le_length (by omega), ← hc, List.drop_length,
      List.nil_append]

theorem chunksExact_flatten_of_length {α : Type u} {β : Type v}
    (f : α → List β)
    {n : Nat} (hn : 0 < n) (hf : ∀ x, (f x).length = n) (xs : List α) :
    chunksExact n ((xs.map f).flatten) = xs.map f := by
  induction xs with
  | nil => simp [chunksExact_nil]
  | cons x xs ih =>
    simp only [List.map_cons, List.flatten_cons]
    rw [chunksExact_append n hn _ _ (hf x), ih]

/-- Decoding inverts encoding: cutting the concatenated 4-byte encodings back
into exact 4-byte chunks and rebuilding each word recovers the original
sequence, provided every word fits in 32 bits. -/
theorem decodeWords_encodeWords (xs : List Nat) (hw : ∀ x ∈ xs, x < 2 ^ 32) :
    decodeWords (encodeWords xs) = xs := by
  unfold decodeWords encodeWords
  rw [chunksExact_flatten_of_length toNeBytes (by omega) toNeBytes_length]
  rw [List.map_map]
  have : ∀ x ∈ xs, (fromNeBytes ∘ toNeBytes) x = id x := by
    intro x hx
    exact fromNeBytes_toNeBytes x (hw x hx)
  rw [List.map_congr_left this, List.map_id]

/-! ## The dispatch pipeline, end to end

The host stages are taken from src/src/main.rs.  The one step that is not
host code is the execution of the submitted dispatch on the device; it is
modelled from the spec: the device views the storage buffer as consecutive
4-byte floats and the dispatch replaces each element by the kernel's
per-element transform, re-serialized in place.  The element type and its
byte encoding are parameters so the same plumbing serves both the bit-level
word model and the value-level `F32` model below. -/

/-- Modelled from the spec: device-side execution of the submitted dispatch.
The storage buffer's bytes are viewed as consecutive 4-byte elements
(decoded by `dec`), the kernel's per-element transform `g` is applied to
each, and the results are re-serialized (by `enc`) in buffer order.  The
device-side execution itself is not code under src/; its effect on the
buffer is the spec's kernel contract. -/
def gpuDispatchBytes (enc : α → List Nat) (dec : List Nat → α) (g : α → α)
    (bytes : List Nat) : List Nat :=
  ((((chunksExact 4 bytes).map dec).map g).map enc).flatten

/-- Readback decoding of `run_compute_shader` applied to the bytes the
dispatch left in the storage buffer (copied verbatim to the staging buffer):
src/src/main.rs lines 106-124. -/
def runComputeShaderModel (enc : α → List Nat) (dec : List Nat → α)
    (g : α → α) (input : List Nat) : List α :=
  (chunksExact 4 (gpuDispatchBytes enc dec g input)).map dec

/-- The `compute` entry point (src/src/main.rs lines 128-135): serialize the
input elements to native-endian bytes and run the shader pipeline on them. -/
def computeModel (enc : α → List Nat) (dec : List Nat → α) (g : α → α)
    (input : List α) : List α :=
  runComputeShaderModel enc dec g ((input.map enc).flatten)

theorem computeModel_eq_map (enc : α → List Nat) (dec : List Nat → α)
    (g : α → α) (input : List α) (hlen : ∀ x, (enc x).length = 4)
    (hrt : ∀ x ∈ input, dec (enc x) = x)
    (hrtg : ∀ x ∈ input, dec (enc (g x)) = g x) :
    computeModel enc dec g input = input.map g := by
  unfold computeModel runComputeShaderModel gpuDispatchBytes
  rw [chunksExact_flatten_of_length enc (by omega) hlen input]
  have hinner : List.map dec (List.map enc input) = input := by
    rw [List.map_map]
    have h1 : ∀ x ∈ input, (dec ∘ enc) x = id x := fun x hx => hrt x hx
    rw [List.map_congr_left h1, List.map_id]
  rw [hinner]
  rw [chunksExact_flatten_of_length enc (by omega) hlen (input.map g)]
  rw [List.map_map]
  have h2 : ∀ y ∈ input.map g, (dec ∘ enc) y = id y := by
    intro y hy
    obtain ⟨x, hx, rfl⟩ := List.mem_map.mp hy
    exact hrtg x hx
  rw [List.map_congr_left h2, List.map_id]

/-! ## The compute kernel (src/inverse_sqrt/src/lib.rs)

An `f32` value is modelled as either a quiet NaN or a numeric value carried
by a rational (exact arithmetic stands in for the device's numerics; the
device's square-root unit is a parameter `s`, since `Float::sqrt` executes
on external hardware).  The kernel's `==` against `0.0` follows IEEE-754:
NaN compares unequal to everything, numeric values compare by value. -/

inductive F32 where
  | nan : F32
  | val : ℚ → F32
deriving DecidableEq

/-- IEEE-754 equality of an `f32` with `0.0`, as `storage[index] == 0.`
evaluates it: false on NaN, value comparison otherwise. -/
def f32EqZero : F32 → Bool
  | F32.nan => false
  | F32.val q => q == 0

/-- Square root of an `f32`: NaN propagates; on a numeric value the device's
square-root function `s` is applied (it returns NaN on negative input and
the rounded root otherwise — that behaviour lives in `s`). -/
def f32Sqrt (s : ℚ → F32) : F32 → F32
  | F32.nan => F32.nan
  | F32.val q => s q

/-- IEEE-754 division of `1.0` by an `f32`: NaN propagates; division by a
nonzero numeric value divides; `1.0 / 0.0` is infinite, outside this model's
numeric range, and is mapped to NaN (the kernel never divides by `0.0` when
`s 0 = F32.val 0`, since input `0.0` takes the NaN branch). -/
def f32OneDiv : F32 → F32
  | F32.nan => F32.nan
  | F32.val q => if q = 0 then F32.nan else F32.val (1 / q)

/-- Per-element transform of `main_cs` (src/inverse_sqrt/src/lib.rs lines
12-16): if the stored value compares equal to `0.0` it becomes NaN,
otherwise it becomes `1.0 / value.sqrt()`. -/
def mainCsElem (s : ℚ → F32) (x : F32) : F32 :=
  if f32EqZero x then F32.nan else f32OneDiv (f32Sqrt s x)

/-- Transform stated by the spec ("if the value is exactly 0.0, replace it
with a quiet NaN; otherwise replace it with 1/sqrt(value)"), written from
the spec's words over the same `f32` operations. -/
def specTransform (s : ℚ → F32) (x : F32) : F32 :=
  if f32EqZero x then F32.nan else f32OneDiv (f32Sqrt s x)

/-- One kernel invocation of `main_cs` (src/inverse_sqrt/src/lib.rs): the
invocation with global id `idx` subscripts the storage slice at `idx`
unconditionally — there is no bound check against any element count — and
overwrites that slot with the transform.  A subscript past the end of the
slice is an out-of-bounds access, returned as `none`. -/
def mainCs (s : ℚ → F32) (idx : Nat) (storage : List F32) :
    Option (List F32) :=
  match storage.get? idx with
  | none => none
  | some x => some (storage.set idx (mainCsElem s x))

/-! ## Host-side pipeline setup (src/src/main.rs) -/

/-- Workgroup counts passed to `cpass.dispatch` in `run_compute_shader`
(src/src/main.rs line 103): `(input.len() as u32 / 4, 1, 1)`, where `input`
is the byte slice, so X is the byte length truncated to 32 bits and divided
by four. -/
def dispatchWorkgroups (inputByteLen : Nat) : Nat × Nat × Nat :=
  (inputByteLen % 2 ^ 32 / 4, 1, 1)

/-- The fixed workgroup size the kernel declares:
`#[spirv(compute(threads(64)))]`. -/
def workgroupSize : Nat := 64

/-- The global invocation ids `id.x` issued by workgroup `w` of a dispatch:
`workgroupSize` consecutive ids starting at `w * workgroupSize`. -/
def workgroupIds (w : Nat) : List Nat :=
  (List.range workgroupSize).map (fun l => workgroupSize * w + l)

/-- The ids of the final workgroup of the dispatch `run_compute_shader`
issues for an input of `byteLen` bytes. -/
def finalWorkgroupIds (byteLen : Nat) : List Nat :=
  workgroupIds ((dispatchWorkgroups byteLen).1 - 1)

/-- Shader stages, for visibility flags. -/
inductive ShaderStage where
  | vertex : ShaderStage
  | fragment : ShaderStage
  | compute : ShaderStage
deriving DecidableEq

/-- The binding type of a buffer binding (wgpu `BufferBindingType`):
`storage readOnly` carries the read-only flag. -/
inductive BufferBindingTy where
  | uniform : BufferBindingTy
  | storage : Bool → BufferBindingTy
deriving DecidableEq

/-- One entry of a bind group layout (wgpu `BindGroupLayoutEntry`): slot
index, visible stages, dynamic-offset flag, minimum binding size in bytes,
and buffer kind. -/
structure LayoutEntry where
  binding : Nat
  visibility : List ShaderStage
  hasDynamicOffset : Bool
  minBindingSize : Option Nat
  ty : BufferBindingTy
deriving DecidableEq

/-- The bind group layout `run_compute_shader` declares (src/src/main.rs
lines 43-57): one entry at binding 0, compute-stage visibility, no dynamic
offset, `min_binding_size = NonZeroU64::new(1)` bytes, read/write storage
buffer. -/
def bindGroupLayoutEntries : List LayoutEntry :=
  [{ binding := 0
     visibility := [ShaderStage.compute]
     hasDynamicOffset := false
     minBindingSize := some 1
     ty := BufferBindingTy.storage false }]

/-- Commands a command encoder records (the subset `run_compute_shader`
uses). -/
inductive GpuCmd where
  | beginComputePass : GpuCmd
  | setBindGroup : Nat → GpuCmd
  | setPipeline : GpuCmd
  | dispatch : Nat → Nat → Nat → GpuCmd
  | endComputePass : GpuCmd
  | copyStorageToStaging : Nat → Nat → Nat → GpuCmd
deriving DecidableEq

/-- The command sequence `run_compute_shader` records into its one encoder
for an input of `byteLen` bytes (src/src/main.rs lines 96-114): a compute
pass (begun, bind group set at 0, pipeline set, one dispatch, ended when the
pass is dropped), then a copy of `byteLen` bytes from offset 0 of the
storage buffer to offset 0 of the staging buffer. -/
def recordedCommands (byteLen : Nat) : List GpuCmd :=
  [GpuCmd.beginComputePass,
   GpuCmd.setBindGroup 0,
   GpuCmd.setPipeline,
   GpuCmd.dispatch (dispatchWorkgroups byteLen).1 1 1,
   GpuCmd.endComputePass,
   GpuCmd.copyStorageToStaging 0 0 byteLen]

/-- Size in bytes of the storage buffer: created with `create_buffer_init`
from the input bytes (src/src/main.rs lines 80-87). -/
def storageBufferSize (byteLen : Nat) : Nat := byteLen

/-- Size in bytes of the staging (readback) buffer: created with
`size: input.len()` (src/src/main.rs lines 73-78). -/
def stagingBufferSize (byteLen : Nat) : Nat := byteLen

/-- Number of `queue.submit` calls `run_compute_shader` makes
(src/src/main.rs line 115): the finished encoder is submitted once. -/
def submitCount : Nat := 1

/-- Device features requested in `init_device`'s `DeviceDescriptor`
(src/src/main.rs lines 20-21). -/
inductive Feature where
  | timestampQuery : Feature
  | spirvShaderPassthrough : Feature
deriving DecidableEq

/-- The feature set `init_device` requests:
`TIMESTAMP_QUERY | SPIRV_SHADER_PASSTHROUGH`. -/
def requestedFeatures : List Feature :=
  [Feature.timestampQuery, Feature.spirvShaderPassthrough]

/-- Device acquisition in `init_device` (src/src/main.rs lines 16-26)
against a stream of platform responses to `request_device`: exactly one
request is made, and its response — success or error — is returned
unchanged.  The pair is (result, number of device requests issued). -/
def initDevice (resps : Nat → Except ε δ) : Except ε δ × Nat :=
  (resps 0, 1)

/-- What `run_compute_shader` does with `init_device`'s result
(src/src/main.rs line 40): `.expect(..)` — an error aborts the whole call
(no device value is produced), a success proceeds with the device. -/
def expectDevice (resp : Except ε δ) : Option δ :=
  match resp with
  | Except.error _ => none
  | Except.ok d => some d

/-- The readback tail of `run_compute_shader` (src/src/main.rs lines
116-125): the `map_async` future's result is mapped — on success the mapped
bytes are decoded as consecutive native-endian 4-byte floats, on error the
`BufferAsyncError` is returned to the caller unchanged.  `compute` itself
returns this result as is. -/
def readback (mapResult : Except ε Unit) (mappedBytes : List Nat) :
    Except ε (List Nat) :=
  match mapResult with
  | Except.error e => Except.error e
  | Except.ok _ => Except.ok (decodeWords mappedBytes)

/-! ## Claims -/

/-- C10: host serialization and deserialization are mutually inverse —
encoding a sequence of f32 values as concatenated native-endian 4-byte
sequences (as `compute` does) and decoding the bytes back in exact 4-byte
chunks (as the readback does) yields the original sequence. -/
theorem serialization_roundtrip (xs : List Nat)
    (hw : ∀ x ∈ xs, x < 2 ^ 32) :
    decodeWords (encodeWords xs) = xs :=
  decodeWords_encodeWords xs hw

theorem serialization_roundtrip_witness :
    (∀ x ∈ [(0 : Nat), 1, 4294967295], x < 2 ^ 32) ∧
    decodeWords (encodeWords [0, 1, 4294967295]) = [0, 1, 4294967295] :=
  ⟨by decide, serialization_roundtrip [0, 1, 4294967295] (by decide)⟩

/-- C3: for every input, the output sequence of the compute call has the
same length as the input sequence, and the element at position `i` of the
output is the per-element transform of the element at position `i` of the
input, for every valid `i`.  The device's action on each stored element is
an arbitrary word transform `g`. -/
theorem compute_length_and_positional (g : Nat → Nat) (input : List Nat)
    (hin : ∀ x ∈ input, x < 2 ^ 32) (himg : ∀ x ∈ input, g x < 2 ^ 32) :
    (computeModel toNeBytes fromNeBytes g input).length = input.length ∧
    ∀ i, i < input.length →
      (computeModel toNeBytes fromNeBytes g input)[i]? = input[i]?.map g := by
  have h := computeModel_eq_map toNeBytes fromNeBytes g input toNeBytes_length
    (fun x hx => fromNeBytes_toNeBytes x (hin x hx))
    (fun x hx => fromNeBytes_toNeBytes (g x) (himg x hx))
  rw [h]
  refine ⟨List.length_map _ _, fun i _ => ?_⟩
  exact List.getElem?_map g input i

theorem compute_length_and_positional_witness :
    (∀ x ∈ [(3 : Nat), 7], x < 2 ^ 32) ∧
    ((computeModel toNeBytes fromNeBytes (fun x => x * x % 2 ^ 32)
        [3, 7]).length = ([3, 7] : List Nat).length ∧
      ∀ i, i < ([3, 7] : List Nat).length →
        (computeModel toNeBytes fromNeBytes (fun x => x * x % 2 ^ 32)
          [3, 7])[i]? = ([3, 7] : List Nat)[i]?.map (fun x => x * x % 2 ^ 32)) :=
  ⟨by decide,
   compute_length_and_positional (fun x => x * x % 2 ^ 32) [3, 7]
     (by decide) (by decide)⟩

/-- C2 counterexample: the claim says the dispatch issues
`ceil(element_count / 64)` workgroups on X; for the repository's own
3-element input (12 bytes) the code issues 3 workgroups, not
`(3 + 64 - 1) / 64 = 1`. -/
theorem dispatch_count_not_ceil_div :
    dispatchWorkgroups (4 * 3) = (3, 1, 1) ∧
    dispatchWorkgroups (4 * 3) ≠ ((3 + 64 - 1) / 64, 1, 1) := by
  decide

/-- C2 amended: the dispatch issues `element_count` workgroups on the X
axis (the input byte length, truncated to u32, divided by 4) and 1 on each
of Y and Z, whenever the byte length fits in 32 bits. -/
theorem dispatch_count_eq_element_count (n : Nat) (h : 4 * n < 2 ^ 32) :
    dispatchWorkgroups (4 * n) = (n, 1, 1) := by
  unfold dispatchWorkgroups
  rw [Nat.mod_eq_of_lt h, Nat.mul_div_cancel_left n (by norm_num)]

theorem dispatch_count_eq_element_count_witness :
    4 * 3 < 2 ^ 32 ∧ dispatchWorkgroups (4 * 3) = (3, 1, 1) :=
  ⟨by decide, dispatch_count_eq_element_count 3 (by decide)⟩

/-- C4: when the element count `n` is positive and not a multiple of the
fixed workgroup size 64, the final workgroup of the dispatch the host
issues contains an invocation whose `id.x` lies at or beyond the buffer's
logical end, and the kernel's unguarded subscript at that id is an
out-of-bounds access (`main_cs` checks `id.x` against no element count). -/
theorem final_workgroup_oob_access (s : ℚ → F32) (n : Nat)
    (storage : List F32) (hlen : storage.length = n) (hn : 0 < n)
    (_hmul : ¬ (64 ∣ n)) (hsz : 4 * n < 2 ^ 32) :
    ∃ idx ∈ finalWorkgroupIds (4 * n),
      n ≤ idx ∧ mainCs s idx storage = none := by
  refine ⟨64 * (n - 1) + 63, ?_, by omega, ?_⟩
  · have hx : (dispatchWorkgroups (4 * n)).1 = n := by
      unfold dispatchWorkgroups
      rw [Nat.mod_eq_of_lt hsz]
      exact Nat.mul_div_cancel_left n (by norm_num)
    unfold finalWorkgroupIds workgroupIds workgroupSize
    rw [hx]
    exact List.mem_map.mpr ⟨63, by simp, rfl⟩
  · unfold mainCs
    have hnone : storage.get? (64 * (n - 1) + 63) = none := by
      rw [List.get?_eq_none]
      omega
    rw [hnone]

theorem final_workgroup_oob_access_witness :
    ([F32.val 4, F32.val 25, F32.val 100] : List F32).length = 3 ∧
    0 < 3 ∧ ¬ (64 ∣ 3) ∧ 4 * 3 < 2 ^ 32 ∧
    ∃ idx ∈ finalWorkgroupIds (4 * 3),
      3 ≤ idx ∧
        mainCs (fun _ => F32.nan) idx
          [F32.val 4, F32.val 25, F32.val 100] = none :=
  ⟨rfl, by decide, by decide, by decide,
   final_workgroup_oob_access (fun _ => F32.nan) 3
     [F32.val 4, F32.val 25, F32.val 100] rfl (by decide) (by decide)
     (by decide)⟩

/-- A concrete 4-component encoding of an `F32` value, used to instantiate
the pipeline's encode parameter: a NaN tag, the positive and negative parts
of the numerator, and the denominator. -/
def encF : F32 → List Nat
  | F32.nan => [1, 0, 0, 0]
  | F32.val q => [0, q.num.toNat, (-q.num).toNat, q.den]

/-- The decoder matching `encF`. -/
def decF : List Nat → F32
  | [0, a, b, c] => F32.val (((a : ℚ) - (b : ℚ)) / (c : ℚ))
  | _ => F32.nan

theorem encF_length (x : F32) : (encF x).length = 4 := by
  cases x <;> rfl

theorem decF_encF (x : F32) : decF (encF x) = x := by
  cases x with
  | nan => rfl
  | val q =>
    simp only [encF, decF]
    congr 1
    have hz : (q.num.toNat : ℤ) - ((-q.num).toNat : ℤ) = q.num := by omega
    have hq : (q.num.toNat : ℚ) - ((-q.num).toNat : ℚ) = (q.num : ℚ) := by
      exact_mod_cast hz
    rw [hq, Rat.num_div_den]

/-- C1: through the whole dispatch pipeline — serialize, run the kernel on
each stored element, copy back, deserialize — the output at every index `i`
below the element count is the spec's transform of the input at `i`: NaN
when the input compares equal to `0.0`, `1/sqrt(value)` otherwise.  The
byte encoding of an `f32` value is any 4-component encoding its decoding
inverts, and the device square-root unit is the parameter `s`. -/
theorem kernel_transform_end_to_end (s : ℚ → F32) (enc : F32 → List Nat)
    (dec : List Nat → F32) (hlen : ∀ x, (enc x).length = 4)
    (hrt : ∀ x, dec (enc x) = x) (input : List F32) (i : Nat)
    (hi : i < input.length) :
    (computeModel enc dec (mainCsElem s) input)[i]? =
      some (specTransform s (input.get ⟨i, hi⟩)) := by
  rw [computeModel_eq_map enc dec (mainCsElem s) input hlen
    (fun x _ => hrt x) (fun x _ => hrt (mainCsElem s x))]
  rw [List.getElem?_map]
  rw [List.getElem?_eq_getElem hi]
  rfl

theorem kernel_transform_end_to_end_witness :
    (∀ x : F32, decF (encF x) = x) ∧
    0 < ([F32.val 4, F32.val 0] : List F32).length ∧
    (computeModel encF decF
        (mainCsElem (fun q => if q < 0 then F32.nan else F32.val q))
        [F32.val 4, F32.val 0])[0]? =
      some (specTransform (fun q => if q < 0 then F32.nan else F32.val q)
        (([F32.val 4, F32.val 0] : List F32).get ⟨0, by decide⟩)) :=
  ⟨decF_encF, by decide,
   kernel_transform_end_to_end (fun q => if q < 0 then F32.nan else F32.val q)
     encF decF encF_length decF_encF [F32.val 4, F32.val 0] 0 (by decide)⟩

/-- C5 counterexample: the claim puts the layout's minimum binding size at
one element, 4 bytes; the layout `run_compute_shader` declares sets
`min_binding_size = NonZeroU64::new(1)` — 1 byte. -/
theorem layout_min_size_not_four_bytes :
    (∀ e ∈ bindGroupLayoutEntries, e.minBindingSize = some 1) ∧
    ¬ (∀ e ∈ bindGroupLayoutEntries, e.minBindingSize = some 4) := by
  decide

/-- C5 amended: the binding layout declares exactly one binding slot, at
index 0, visible to the compute stage only, a read/write (non-read-only)
storage buffer without dynamic offset, with minimum binding size 1 byte
(not one 4-byte element). -/
theorem layout_single_storage_entry :
    bindGroupLayoutEntries.length = 1 ∧
    ∀ e ∈ bindGroupLayoutEntries,
      e.binding = 0 ∧ e.visibility = [ShaderStage.compute] ∧
      e.hasDynamicOffset = false ∧ e.ty = BufferBindingTy.storage false ∧
      e.minBindingSize = some 1 := by
  decide

/-- C6: the command buffer is a one-shot recording of begin pass, set bind
group, set pipeline, dispatch, end pass, then a copy whose extent is the
full size of both the storage and the staging buffer; the copy sits at a
later position of the recording than the dispatch, and the queue receives
exactly one submission. -/
theorem command_recording_order (byteLen : Nat) :
    recordedCommands byteLen =
      [GpuCmd.beginComputePass, GpuCmd.setBindGroup 0, GpuCmd.setPipeline,
       GpuCmd.dispatch (dispatchWorkgroups byteLen).1 1 1,
       GpuCmd.endComputePass,
       GpuCmd.copyStorageToStaging 0 0 byteLen] ∧
    (recordedCommands byteLen)[3]? =
      some (GpuCmd.dispatch (dispatchWorkgroups byteLen).1 1 1) ∧
    (recordedCommands byteLen)[5]? =
      some (GpuCmd.copyStorageToStaging 0 0 byteLen) ∧
    byteLen = storageBufferSize byteLen ∧
    byteLen = stagingBufferSize byteLen ∧
    submitCount = 1 :=
  ⟨rfl, rfl, rfl, rfl, rfl, rfl⟩

/-- C7: device acquisition requests exactly the two features
TIMESTAMP_QUERY and SPIRV_SHADER_PASSTHROUGH; it makes a single device
request whose response it returns unchanged (no retry), and a failed
response aborts `run_compute_shader` fatally — no device value is
produced. -/
theorem device_request_features_no_retry :
    requestedFeatures =
      [Feature.timestampQuery, Feature.spirvShaderPassthrough] ∧
    requestedFeatures.length = 2 ∧
    ∀ (ε δ : Type) (resps : Nat → Except ε δ),
      initDevice resps = (resps 0, 1) ∧
      ∀ e : ε, expectDevice (Except.error e : Except ε δ) = none :=
  ⟨rfl, rfl, fun _ _ _ => ⟨rfl, fun _ => rfl⟩⟩

/-- C8: when the asynchronous map of the staging buffer reports an error,
the readback returns exactly that error — the same value, typed — and no
float sequence is produced on that path. -/
theorem readback_error_propagates (ε : Type) (e : ε) (bytes : List Nat) :
    readback (Except.error e) bytes = Except.error e ∧
    ∀ out : List Nat, readback (Except.error e) bytes ≠ Except.ok out := by
  refine ⟨rfl, fun out h => ?_⟩
  simp [readback] at h

end InvSqrt
